import Mathlib

/-!
Verification development for the WebCrawling repository.

Shallow embedding of the two core modules:
* `crawler.py` — the BFS crawler `Crawler.crawl`;
* `data_cleaner.py` — the page classifier, the sanitizer and the field
  extractors of `DataCleaner`.

Conventions of the embedding:
* URLs are embedded in parsed form (`Url` below); `urlparse(u).netloc`
  is the `netloc` field and string equality of full URLs coincides with
  structural equality of the parsed form under the canonical printing
  `scheme ++ "://" ++ netloc ++ rest`.
* The network is a parameter `fetch : Url → Option FetchResult`; `none`
  models any fetch failure (network error, timeout, non-2xx status —
  `requests.get` raising or `raise_for_status` raising), `some` models a
  successful response.  The `href` values of a fetched page are given
  already resolved to absolute URLs (`urljoin` applied), which is fully
  general because `urljoin` may produce an arbitrary URL.
* The Python `while` loop is embedded with an explicit fuel parameter;
  all claims are invariants proved for every fuel value.
* Two ghost fields (`fetched`, `enqueued`) record the URLs passed to
  `requests.get` and the URLs appended to `to_visit` after the seed;
  they change no computed data and only make the traffic observable.
-/

namespace WebCrawling

/-- A parsed URL: `urlparse(u).scheme`, `urlparse(u).netloc` and the rest
of the URL (path, query, fragment). -/
structure Url where
  scheme : String
  netloc : String
  rest : String
deriving Repr, DecidableEq

/-- `absolute_url.startswith('http')` of `crawler.py:107`, expressed on the
parsed form: for a URL printed as `scheme ++ "://" ++ netloc ++ rest`, the
string starts with `"http"` exactly when the scheme does. -/
def Url.startsHttp (u : Url) : Bool :=
  "http".data.isPrefixOf u.scheme.data

/-- A successful HTTP response as the crawler consumes it: the raw HTML
(`response.text`), the extracted plain text (`soup.get_text(...)`) and the
anchor `href` values already resolved by `urljoin` against the page URL. -/
structure FetchResult where
  html : String
  content : String
  links : List Url
deriving Repr, DecidableEq

/-- One entry of the crawler's result list (`page_data` of `crawler.py:84`). -/
structure PageData where
  url : Url
  company : String
  html : String
  content : String
deriving Repr, DecidableEq

/-- The state returned by the loop embedding: the result list, the visited
set, the remaining `to_visit` queue, plus the two ghost traces. -/
structure CrawlResult where
  results : List PageData
  visited : List Url
  frontier : List Url
  fetched : List Url
  enqueued : List Url
deriving Repr, DecidableEq

/-- A company record (`{'name': ..., 'url': ...}` from the config). -/
structure Company where
  name : String
  url : Url
deriving Repr, DecidableEq

/-- The link filter of `crawler.py:105-108`: keep an absolute URL when its
netloc equals the start domain, it starts with `http`, and it is not in
the visited set. -/
def keepLink (domain : String) (visited : List Url) (u : Url) : Bool :=
  u.netloc == domain && (u.startsHttp && !(visited.contains u))

/-- The `while to_visit and page_count < self.max_pages` loop of
`Crawler.crawl` (`crawler.py:60-114`), with fuel.  Each iteration pops the
front of `to_visit`; already-visited URLs are discarded; otherwise the URL
is marked visited and fetched.  On success the page is appended to the
results, the count incremented and the same-domain links enqueued; on
failure (`fetch = none`, the `except` branch) nothing else happens. -/
def crawlLoop (fetch : Url → Option FetchResult) (companyName : String)
    (domain : String) (maxPages : Nat) :
    Nat → List Url → List Url → List PageData → Nat → List Url → List Url →
    CrawlResult
  | 0, toVisit, visited, results, _, fTr, eTr =>
    ⟨results, visited, toVisit, fTr, eTr⟩
  | Nat.succ fuel, toVisit, visited, results, pageCount, fTr, eTr =>
    match toVisit with
    | [] => ⟨results, visited, [], fTr, eTr⟩
    | current :: rest =>
      if pageCount < maxPages then
        if visited.contains current then
          crawlLoop fetch companyName domain maxPages fuel rest visited
            results pageCount fTr eTr
        else
          let visited' := current :: visited
          match fetch current with
          | none =>
            crawlLoop fetch companyName domain maxPages fuel rest visited'
              results pageCount (fTr ++ [current]) eTr
          | some fr =>
            let newLinks := fr.links.filter (keepLink domain visited')
            crawlLoop fetch companyName domain maxPages fuel
              (rest ++ newLinks) visited'
              (results ++ [⟨current, companyName, fr.html, fr.content⟩])
              (pageCount + 1) (fTr ++ [current]) (eTr ++ newLinks)
      else ⟨results, visited, current :: rest, fTr, eTr⟩

/-- `Crawler.crawl` (`crawler.py:36-117`): seed the queue with the start
URL, fix the domain to `urlparse(start_url).netloc`, run the loop. -/
def crawl (fetch : Url → Option FetchResult) (company : Company)
    (maxPages : Nat) (fuel : Nat) : CrawlResult :=
  crawlLoop fetch company.name company.url.netloc maxPages fuel
    [company.url] [] [] 0 [] []

/-- The authority of a URL in the sense of the spec: scheme, host and
port (`netloc` is host and port). -/
def Url.authority (u : Url) : String × String :=
  (u.scheme, u.netloc)

/-- Master invariant of the crawl loop, proved once and projected by the
individual claims: domain confinement of the queue and the results,
uniqueness of result URLs, the page-count bound, uniqueness of the
fetched URLs, and that every result stems from a successful fetch. -/
theorem crawlLoop_invariant (fetch : Url → Option FetchResult)
    (companyName domain : String) (maxPages : Nat) :
    ∀ (fuel : Nat) (toVisit visited : List Url) (results : List PageData)
      (pageCount : Nat) (fTr eTr : List Url),
      (∀ u ∈ toVisit, u.netloc = domain) →
      (∀ p ∈ results, p.url.netloc = domain) →
      (results.map PageData.url).Nodup →
      (∀ p ∈ results, p.url ∈ visited) →
      results.length = pageCount →
      pageCount ≤ maxPages →
      fTr.Nodup →
      (∀ u ∈ fTr, u ∈ visited) →
      (∀ p ∈ results, ∃ fr, fetch p.url = some fr) →
      (∀ p ∈ (crawlLoop fetch companyName domain maxPages fuel toVisit
          visited results pageCount fTr eTr).results, p.url.netloc = domain) ∧
      ((crawlLoop fetch companyName domain maxPages fuel toVisit visited
          results pageCount fTr eTr).results.map PageData.url).Nodup ∧
      (crawlLoop fetch companyName domain maxPages fuel toVisit visited
          results pageCount fTr eTr).results.length ≤ maxPages ∧
      (crawlLoop fetch companyName domain maxPages fuel toVisit visited
          results pageCount fTr eTr).fetched.Nodup ∧
      (∀ p ∈ (crawlLoop fetch companyName domain maxPages fuel toVisit
          visited results pageCount fTr eTr).results,
        ∃ fr, fetch p.url = some fr) := by
  intro fuel
  induction fuel with
  | zero =>
    intro toVisit visited results pageCount fTr eTr h1 h2 h3 h4 h5 h6 h7 h8 h9
    simp only [crawlLoop]
    exact ⟨h2, h3, h5 ▸ h6, h7, h9⟩
  | succ fuel ih =>
    intro toVisit visited results pageCount fTr eTr h1 h2 h3 h4 h5 h6 h7 h8 h9
    match toVisit with
    | [] =>
      simp only [crawlLoop]
      exact ⟨h2, h3, h5 ▸ h6, h7, h9⟩
    | current :: rest =>
      simp only [crawlLoop]
      by_cases hcnt : pageCount < maxPages
      · simp only [hcnt, if_true]
        by_cases hvis : visited.contains current
        · simp only [hvis, if_true]
          exact ih rest visited results pageCount fTr eTr
            (fun u hu => h1 u (List.mem_cons_of_mem _ hu)) h2 h3 h4 h5 h6 h7 h8 h9
        · simp only [hvis, if_false, Bool.false_eq_true]
          have hcur_notvis : current ∉ visited := by
            simpa using hvis
          match hf : fetch current with
          | none =>
            refine ih rest (current :: visited) results pageCount
              (fTr ++ [current]) eTr
              (fun u hu => h1 u (List.mem_cons_of_mem _ hu)) h2 h3
              (fun p hp => List.mem_cons_of_mem _ (h4 p hp)) h5 h6 ?_ ?_ h9
            · simp only [List.nodup_append, List.nodup_cons, List.nodup_nil]
              refine ⟨h7, by simp, ?_⟩
              intro u hu hmem
              simp only [List.mem_singleton] at hmem
              exact hcur_notvis (hmem ▸ h8 u hu)
            · intro u hu
              rcases List.mem_append.mp hu with h | h
              · exact List.mem_cons_of_mem _ (h8 u h)
              · simp only [List.mem_singleton] at h
                exact h ▸ List.mem_cons_self _ _
          | some fr =>
            have hcurdom : current.netloc = domain := h1 current (List.mem_cons_self _ _)
            refine ih (rest ++ fr.links.filter (keepLink domain (current :: visited)))
              (current :: visited)
              (results ++ [⟨current, companyName, fr.html, fr.content⟩])
              (pageCount + 1) (fTr ++ [current]) (eTr ++ _) ?_ ?_ ?_ ?_ ?_ ?_ ?_ ?_ ?_
            · intro u hu
              rcases List.mem_append.mp hu with h | h
              · exact h1 u (List.mem_cons_of_mem _ h)
              · have := (List.mem_filter.mp h).2
                simp only [keepLink, Bool.and_eq_true, beq_iff_eq] at this
                exact this.1
            · intro p hp
              rcases List.mem_append.mp hp with h | h
              · exact h2 p h
              · simp only [List.mem_singleton] at h
                subst h; exact hcurdom
            · simp only [List.map_append, List.map_cons, List.map_nil,
                List.nodup_append, List.nodup_cons, List.nodup_nil]
              refine ⟨h3, by simp, ?_⟩
              intro u hu hmem
              simp only [List.mem_singleton] at hmem
              subst hmem
              rcases List.mem_map.mp hu with ⟨p, hp, hpu⟩
              exact hcur_notvis (hpu ▸ h4 p hp)
            · intro p hp
              rcases List.mem_append.mp hp with h | h
              · exact List.mem_cons_of_mem _ (h4 p h)
              · simp only [List.mem_singleton] at h
                subst h; exact List.mem_cons_self _ _
            · simp [h5]
            · omega
            · simp only [List.nodup_append, List.nodup_cons, List.nodup_nil]
              refine ⟨h7, by simp, ?_⟩
              intro u hu hmem
              simp only [List.mem_singleton] at hmem
              exact hcur_notvis (hmem ▸ h8 u hu)
            · intro u hu
              rcases List.mem_append.mp hu with h | h
              · exact List.mem_cons_of_mem _ (h8 u h)
              · simp only [List.mem_singleton] at h
                exact h ▸ List.mem_cons_self _ _
            · intro p hp
              rcases List.mem_append.mp hp with h | h
              · exact h9 p h
              · simp only [List.mem_singleton] at h
                subst h; exact ⟨fr, hf⟩
      · simp only [hcnt, if_false]
        exact ⟨h2, h3, h5 ▸ h6, h7, h9⟩

/-! Concrete fixtures for claim C1: a start URL with scheme `https` whose
page links to an `http` URL on the same netloc.  The link filter of
`crawler.py:105-107` compares only `urlparse(u).netloc` and
`startswith('http')`, so the `http` page is crawled and returned. -/

def c1Start : Url := ⟨"https", "example.com", "/"⟩

def c1Link : Url := ⟨"http", "example.com", "/about"⟩

def c1Fetch : Url → Option FetchResult := fun u =>
  if u = c1Start then some ⟨"<html>A</html>", "A", [c1Link]⟩
  else if u = c1Link then some ⟨"<html>B</html>", "B", []⟩
  else none

/-- C1, counterexample: on the two-page site above, the returned sequence
contains a page whose authority (scheme+host+port) differs from the start
URL's authority — the claim as stated is false, because the crawler never
compares schemes. -/
theorem crawl_authority_confinement_cex :
    ∃ p ∈ (crawl c1Fetch ⟨"ACME", c1Start⟩ 10 10).results,
      p.url.authority ≠ c1Start.authority := by decide

/-- C1, amended: every URL in the returned page sequence has the same
`netloc` (host and port) as the start URL; the scheme is not compared and
may differ. -/
theorem crawl_netloc_confinement (fetch : Url → Option FetchResult)
    (company : Company) (maxPages fuel : Nat) :
    ∀ p ∈ (crawl fetch company maxPages fuel).results,
      p.url.netloc = company.url.netloc := by
  have h := crawlLoop_invariant fetch company.name company.url.netloc maxPages
    fuel [company.url] [] [] 0 [] []
    (by intro u hu; simp only [List.mem_singleton] at hu; rw [hu])
    (by simp) (by simp) (by simp) rfl (Nat.zero_le _) (by simp) (by simp)
    (by simp)
  exact h.1

/-- Witness for C1's amended theorem at the concrete two-page site. -/
theorem crawl_netloc_confinement_wit :
    (PageData.mk c1Link "ACME" "<html>B</html>" "B"
        ∈ (crawl c1Fetch ⟨"ACME", c1Start⟩ 10 10).results) ∧
      (PageData.mk c1Link "ACME" "<html>B</html>" "B").url.netloc
        = (Company.mk "ACME" c1Start).url.netloc :=
  ⟨by decide, crawl_netloc_confinement c1Fetch ⟨"ACME", c1Start⟩ 10 10
    (PageData.mk c1Link "ACME" "<html>B</html>" "B") (by decide)⟩

/-! Concrete fixtures for claim C2: the start page links to the same URL
twice.  The enqueue check of `crawler.py:107` consults only
`visited_urls`, never the current contents of `to_visit`, so the URL is
appended twice. -/

def c2Start : Url := ⟨"https", "example.com", "/"⟩

def c2Link : Url := ⟨"https", "example.com", "/p"⟩

def c2Fetch : Url → Option FetchResult := fun u =>
  if u = c2Start then some ⟨"<html>A</html>", "A", [c2Link, c2Link]⟩
  else if u = c2Link then some ⟨"<html>B</html>", "B", []⟩
  else none

/-- C2, counterexample: with `max_pages = 1` the run above appends the
same URL to the frontier twice (the ghost `enqueued` trace records both
appends), and the final pending queue holds two copies of it — the claim
that a URL is enqueued at most once, with frontier membership checked at
enqueue time, is false. -/
theorem frontier_enqueue_once_cex :
    (crawl c2Fetch ⟨"ACME", c2Start⟩ 1 5).enqueued.count c2Link = 2 ∧
      ¬ (crawl c2Fetch ⟨"ACME", c2Start⟩ 1 5).frontier.Nodup := by decide

/-- C2, amended: a URL may be appended to the frontier several times —
the enqueue check of `crawler.py:107` consults only the visited set —
but duplicates are discarded at dequeue time by the visited check, so
every URL is passed to the fetcher at most once across the run (the ghost
`fetched` trace never repeats a URL). -/
theorem crawl_fetch_once (fetch : Url → Option FetchResult)
    (company : Company) (maxPages fuel : Nat) :
    (crawl fetch company maxPages fuel).fetched.Nodup := by
  have h := crawlLoop_invariant fetch company.name company.url.netloc maxPages
    fuel [company.url] [] [] 0 [] []
    (by intro u hu; simp only [List.mem_singleton] at hu; rw [hu])
    (by simp) (by simp) (by simp) rfl (Nat.zero_le _) (by simp) (by simp)
    (by simp)
  exact h.2.2.2.1

/-- C5: a fetch failure on one URL is recovered locally.  First conjunct —
the failing iteration of the loop (`except` branch of `crawler.py:113`)
reduces to the loop on the remaining frontier with the URL merely marked
visited and logged in the fetch trace: it contributes no result, does not
increment the page count, and the rest of the frontier is still
processed; since the embedding is a total function, the call never raises.
Second conjunct — every returned page stems from a successful fetch, so a
failing URL never contributes an entry. -/
theorem crawl_fetch_failure_recovery (fetch : Url → Option FetchResult)
    (companyName domain : String) (maxPages fuel : Nat) (current : Url)
    (rest visited : List Url) (results : List PageData) (pageCount : Nat)
    (fTr eTr : List Url)
    (hfail : fetch current = none)
    (hnew : visited.contains current = false)
    (hcnt : pageCount < maxPages) :
    (crawlLoop fetch companyName domain maxPages (fuel + 1)
        (current :: rest) visited results pageCount fTr eTr
      = crawlLoop fetch companyName domain maxPages fuel rest
        (current :: visited) results pageCount (fTr ++ [current]) eTr) ∧
    (∀ (company : Company) (fuel' : Nat),
      ∀ p ∈ (crawl fetch company maxPages fuel').results,
        ∃ fr, fetch p.url = some fr) := by
  constructor
  · simp only [crawlLoop, hcnt, if_true, hnew, Bool.false_eq_true, if_false,
      hfail]
  · intro company fuel' p hp
    have h := crawlLoop_invariant fetch company.name company.url.netloc
      maxPages fuel' [company.url] [] [] 0 [] []
      (by intro u hu; simp only [List.mem_singleton] at hu; rw [hu])
      (by simp) (by simp) (by simp) rfl (Nat.zero_le _) (by simp) (by simp)
      (by simp)
    exact h.2.2.2.2 p hp

/-! Concrete fixtures for the C5 witness: a two-link site whose second
link times out. -/

def c5Start : Url := ⟨"https", "example.com", "/"⟩

def c5Bad : Url := ⟨"https", "example.com", "/broken"⟩

def c5Fetch : Url → Option FetchResult := fun u =>
  if u = c5Start then some ⟨"<html>A</html>", "A", [c5Bad]⟩
  else none

/-- Witness for C5 at a concrete failing URL. -/
theorem crawl_fetch_failure_recovery_wit :
    (c5Fetch c5Bad = none ∧ ([c5Start].contains c5Bad = false) ∧ 1 < 10) ∧
    ((crawlLoop c5Fetch "ACME" "example.com" 10 (3 + 1)
        (c5Bad :: []) [c5Start] [⟨c5Start, "ACME", "<html>A</html>", "A"⟩] 1
        [c5Start] [c5Bad]
      = crawlLoop c5Fetch "ACME" "example.com" 10 3 []
        (c5Bad :: [c5Start]) [⟨c5Start, "ACME", "<html>A</html>", "A"⟩] 1
        ([c5Start] ++ [c5Bad]) [c5Bad]) ∧
    (∀ (company : Company) (fuel' : Nat),
      ∀ p ∈ (crawl c5Fetch company 10 fuel').results,
        ∃ fr, c5Fetch p.url = some fr)) :=
  ⟨⟨by decide, by decide, by decide⟩,
    crawl_fetch_failure_recovery c5Fetch "ACME" "example.com" 10 3 c5Bad
      [] [c5Start] [⟨c5Start, "ACME", "<html>A</html>", "A"⟩] 1
      [c5Start] [c5Bad] (by decide) (by decide) (by decide)⟩

/-- C6: the returned page sequence has length at most `maxPages`, and with
`maxPages = 0` the result is empty and no URL is ever passed to the
fetcher (the ghost `fetched` trace is empty). -/
theorem crawl_page_count_bound (fetch : Url → Option FetchResult)
    (company : Company) (maxPages fuel : Nat) :
    (crawl fetch company maxPages fuel).results.length ≤ maxPages ∧
    (maxPages = 0 →
      (crawl fetch company maxPages fuel).results = [] ∧
      (crawl fetch company maxPages fuel).fetched = []) := by
  constructor
  · have h := crawlLoop_invariant fetch company.name company.url.netloc
      maxPages fuel [company.url] [] [] 0 [] []
      (by intro u hu; simp only [List.mem_singleton] at hu; rw [hu])
      (by simp) (by simp) (by simp) rfl (Nat.zero_le _) (by simp) (by simp)
      (by simp)
    exact h.2.2.1
  · intro h0
    subst h0
    cases fuel with
    | zero => exact ⟨rfl, rfl⟩
    | succ fuel => simp [crawl, crawlLoop]

/-- Witness for C6 at `maxPages = 0` on a concrete site. -/
theorem crawl_page_count_bound_wit :
    ((crawl c1Fetch ⟨"ACME", c1Start⟩ 0 10).results.length ≤ 0 ∧
      ((0 : Nat) = 0 →
        (crawl c1Fetch ⟨"ACME", c1Start⟩ 0 10).results = [] ∧
        (crawl c1Fetch ⟨"ACME", c1Start⟩ 0 10).fetched = [])) ∧
    (crawl c1Fetch ⟨"ACME", c1Start⟩ 0 10).results = [] :=
  ⟨crawl_page_count_bound c1Fetch ⟨"ACME", c1Start⟩ 0 10,
    (crawl_page_count_bound c1Fetch ⟨"ACME", c1Start⟩ 0 10).2 rfl |>.1⟩

/-- C7: no URL appears twice in the returned page sequence — the mapped
list of result URLs has no duplicates, for every fetcher, company, page
bound and fuel (in particular even when a URL sits in the pending queue
several times). -/
theorem crawl_no_duplicate_results (fetch : Url → Option FetchResult)
    (company : Company) (maxPages fuel : Nat) :
    ((crawl fetch company maxPages fuel).results.map PageData.url).Nodup := by
  have h := crawlLoop_invariant fetch company.name company.url.netloc maxPages
    fuel [company.url] [] [] 0 [] []
    (by intro u hu; simp only [List.mem_singleton] at hu; rw [hu])
    (by simp) (by simp) (by simp) rfl (Nat.zero_le _) (by simp) (by simp)
    (by simp)
  exact h.2.1

/-!
### Python string primitives

`data_cleaner.py` manipulates Python strings with `str.strip`, `str.lower`,
`str.title`, `in`, `str.isdigit`, `len`, `str.split` and a handful of
regular expressions.  These are embedded as executable functions on
`List Char` (so that they reduce inside the kernel), ASCII-faithful where
Python is Unicode-aware in ways the repository's data never exercises
(case only matters for ASCII here; the whitespace class is the ASCII
`\s`). -/

/-- The ASCII part of Python's `\s` / `str.strip` whitespace class. -/
def isPyWs (c : Char) : Bool :=
  c == ' ' || c == '\t' || c == '\n' || c == '\r' ||
    c == Char.ofNat 11 || c == Char.ofNat 12

/-- `needle in hay` on character lists. -/
def substrList (needle : List Char) : List Char → Bool
  | [] => needle.isEmpty
  | c :: t => needle.isPrefixOf (c :: t) || substrList needle t

/-- Python `needle in hay` for strings. -/
def substrS (needle hay : String) : Bool :=
  substrList needle.data hay.data

/-- Python `str.lower` (ASCII case folding). -/
def strLower (s : String) : String :=
  ⟨s.data.map Char.toLower⟩

/-- Python `str.strip()`. -/
def pyStrip (s : String) : String :=
  ⟨((s.data.dropWhile isPyWs).reverse.dropWhile isPyWs).reverse⟩

/-- `re.sub(r'\s+', ' ', s)`: every maximal whitespace run becomes one
space.  The flag records whether the previous character was whitespace. -/
def collapseWsChars : Bool → List Char → List Char
  | _, [] => []
  | inWs, c :: cs =>
    if isPyWs c then
      (if inWs then [] else [' ']) ++ collapseWsChars true cs
    else c :: collapseWsChars false cs

/-- `re.sub(r'\s+', ' ', s)` on strings. -/
def collapseWs (s : String) : String :=
  ⟨collapseWsChars false s.data⟩

/-- Python `str.isdigit` (ASCII digits). -/
def pyIsDigit (s : String) : Bool :=
  !s.data.isEmpty && s.data.all Char.isDigit

/-- The trailing-punctuation class `[：:*]` of the key-cleaning regex. -/
def isKeyPunct (c : Char) : Bool :=
  c == '：' || c == ':' || c == '*'

/-- `re.sub(r'[：:*]\s*$', '', key)`: remove one trailing `：`/`:`/`*`
together with the whitespace that follows it at the end of the string. -/
def cleanKey (s : String) : String :=
  let r := s.data.reverse
  let r1 := r.dropWhile isPyWs
  match r1 with
  | c :: t => if isKeyPunct c then ⟨t.reverse⟩ else s
  | [] => s

/-- Helper for `re.sub(r'\n{3,}', '\n\n', s)`: flush a pending newline
run. -/
def emitNl (n : Nat) : List Char :=
  if n ≥ 3 then ['\n', '\n'] else List.replicate n '\n'

/-- `re.sub(r'\n{3,}', '\n\n', s)`: runs of three or more newlines become
exactly two. -/
def collapseNl3Chars (pending : Nat) : List Char → List Char
  | [] => emitNl pending
  | c :: cs =>
    if c == '\n' then collapseNl3Chars (pending + 1) cs
    else emitNl pending ++ c :: collapseNl3Chars 0 cs

/-- `re.sub(r'\n{3,}', '\n\n', s)` on strings. -/
def collapseNl3 (s : String) : String :=
  ⟨collapseNl3Chars 0 s.data⟩

/-- One maximal whitespace run under `re.sub(r'\n\s*\n', '\n\n', s)`: if
the run contains two newlines, the leftmost match spans from its first to
its last newline and is replaced by exactly two newlines. -/
def subRunNl (run : List Char) : List Char :=
  let pre := run.takeWhile (fun c => c != '\n')
  let rest := run.dropWhile (fun c => c != '\n')
  match rest with
  | [] => run
  | _ :: tail =>
    if tail.contains '\n' then
      pre ++ ['\n', '\n'] ++ (tail.reverse.takeWhile (fun c => c != '\n')).reverse
    else run

/-- `re.sub(r'\n\s*\n', '\n\n', s)`: scan the string accumulating maximal
whitespace runs and rewrite each run. -/
def subNlWsNlChars (acc : List Char) : List Char → List Char
  | [] => subRunNl acc.reverse
  | c :: cs =>
    if isPyWs c then subNlWsNlChars (c :: acc) cs
    else subRunNl acc.reverse ++ c :: subNlWsNlChars [] cs

/-- `re.sub(r'\n\s*\n', '\n\n', s)` on strings. -/
def subNlWsNl (s : String) : String :=
  ⟨subNlWsNlChars [] s.data⟩

/-- The separator class `[\|\-–—_]` of the title-cleaning regexes. -/
def isSepChar (c : Char) : Bool :=
  c == '|' || c == '-' || c == '–' || c == '—' || c == '_'

/-- The `$` condition for a trailing `.*$` starting here: `.*` cannot
cross a newline and `$` (without `re.M`) only matches at the end of the
string or just before a final newline, so the remainder may contain a
newline only as its very last character. -/
def dollarOk (cs : List Char) : Bool :=
  match cs.dropWhile (fun c => c != '\n') with
  | [] => true
  | [_] => true
  | _ => false

/-- What `.*$` leaves behind: nothing, or the single final newline. -/
def dollarTail (cs : List Char) : List Char :=
  cs.dropWhile (fun c => c != '\n')

/-- `re.sub(r'\s*[\|\-–—_]\s*.*$', '', s)` (`data_cleaner.py:213`): cut the
string at the first separator character whose tail satisfies the `$`
condition, dropping the whitespace run immediately before the separator
(`pend` holds the pending run) and keeping a final newline if present. -/
def stripSepAux (pend : List Char) : List Char → List Char
  | [] => pend.reverse
  | c :: cs =>
    if isSepChar c && dollarOk (cs.dropWhile isPyWs) then
      dollarTail (cs.dropWhile isPyWs)
    else if isPyWs c then stripSepAux (c :: pend) cs
    else pend.reverse ++ c :: stripSepAux [] cs

/-- `re.sub(r'\s*[\|\-–—_]\s*.*$', '', s)` on strings. -/
def stripSiteSuffix (s : String) : String :=
  ⟨stripSepAux [] s.data⟩

/-- The boilerplate suffix phrases of `data_cleaner.py:256`. -/
def suffixPhrases : List String :=
  ["官方网站", "官网", "详情", "规格", "参数", "价格", "购买", "订购", "商城", "商店", "专卖店"]

/-- After a separator: skip whitespace, require one of the suffix phrases
(no phrase is a prefix of another, so the alternation is deterministic),
then require the `$` condition for the closing `.*$`; return the kept
tail on success. -/
def phraseMatchAfter (cs : List Char) : Option (List Char) :=
  let afterWs := cs.dropWhile isPyWs
  match suffixPhrases.find? (fun p => p.data.isPrefixOf afterWs) with
  | none => none
  | some p =>
    let afterPhrase := afterWs.drop p.data.length
    if dollarOk afterPhrase then some (dollarTail afterPhrase) else none

/-- `re.sub(r'\s*[\|\-–—_]\s*(官方网站|…|专卖店).*$', '', s)`
(`data_cleaner.py:256`): cut at the first separator that is followed,
after optional whitespace, by one of the suffix phrases, subject to the
`$` condition. -/
def stripPhraseAux (pend : List Char) : List Char → List Char
  | [] => pend.reverse
  | c :: cs =>
    match (if isSepChar c then phraseMatchAfter cs else none) with
    | some tail => tail
    | none =>
      if isPyWs c then stripPhraseAux (c :: pend) cs
      else pend.reverse ++ c :: stripPhraseAux [] cs

/-- The name-suffix-cleaning substitution on strings. -/
def stripNameSuffix (s : String) : String :=
  ⟨stripPhraseAux [] s.data⟩

/-- Python `str.title` (ASCII): uppercase each letter that follows a
non-letter, lowercase the other letters. -/
def pyTitleChars : Bool → List Char → List Char
  | _, [] => []
  | prevAlpha, c :: cs =>
    if c.isAlpha then
      (if prevAlpha then c.toLower else c.toUpper) :: pyTitleChars true cs
    else c :: pyTitleChars false cs

/-- Python `str.title` on strings. -/
def pyTitle (s : String) : String :=
  ⟨pyTitleChars false s.data⟩

/-- Python `s.split(sep)` for a one-character separator on character
lists (keeps empty segments). -/
def splitOnCh (sep : Char) : List Char → List (List Char)
  | [] => [[]]
  | c :: cs =>
    if c == sep then [] :: splitOnCh sep cs
    else
      match splitOnCh sep cs with
      | [] => [[c]]
      | seg :: rest => (c :: seg) :: rest

/-- Python `s.split('\n')`. -/
def pySplitNl (s : String) : List String :=
  (splitOnCh '\n' s.data).map String.mk

/-- Python `s.split('/')`. -/
def pySplitSlash (s : String) : List String :=
  (splitOnCh '/' s.data).map String.mk

/-- Python `sep.join(parts)`. -/
def joinSep (sep : String) : List String → String
  | [] => ""
  | s :: rest => rest.foldl (fun acc t => acc ++ sep ++ t) s

/-- The colon class `[：:]` of the key/value regexes. -/
def isColon (c : Char) : Bool :=
  c == ':' || c == '：'

/-- `re.search(r'([^:：]+)[：:](.*)', text)` (`data_cleaner.py:457`): the
leftmost match starts at the first non-colon character; group 1 is the
maximal colon-free run from there, group 2 runs from just after the
following colon to the end of that line. -/
def matchKVStrict (s : List Char) : Option (List Char × List Char) :=
  let t := s.dropWhile isColon
  let g1 := t.takeWhile (fun c => !isColon c)
  match t.dropWhile (fun c => !isColon c) with
  | [] => none
  | _ :: after => some (g1, after.takeWhile (fun c => c != '\n'))

/-- `re.search(r'([^:：]+)[：:\s]*([^\n]+)', line)` (`data_cleaner.py:483`)
on a newline-free line, with the backtracking the Python engine performs:
group 1 is greedily the maximal colon-free run, the separator then the
maximal colon/whitespace run, and when nothing is left for group 2 the
engine backtracks — first giving the separator's last character, else
(when group 1 consumed the whole line) group 1's last character — to
group 2. -/
def matchKVLoose (s : List Char) : Option (List Char × List Char) :=
  let t := s.dropWhile isColon
  if t.length < 2 then none
  else
    let g1max := t.takeWhile (fun c => !isColon c)
    let afterG1 := t.dropWhile (fun c => !isColon c)
    let afterSep := afterG1.dropWhile (fun c => isColon c || isPyWs c)
    if !afterSep.isEmpty then some (g1max, afterSep)
    else
      let g2 := t.drop (t.length - 1)
      if afterG1.isEmpty then some (t.take (t.length - 1), g2)
      else some (g1max, g2)

/-!
### The DOM

`data_cleaner.py` reads HTML through BeautifulSoup.  The parsed document
is embedded as a tree of element and text nodes (`BeautifulSoup(html)`
itself is abstracted: a page's `html` field carries the parsed tree).
`NodeList` is a bespoke list so that all tree recursions are structural
and reduce inside the kernel. -/

mutual
inductive Node where
  | elem (tag : String) (attrs : List (String × String)) (children : NodeList)
  | text (s : String)
deriving Repr
inductive NodeList where
  | nil
  | cons (n : Node) (l : NodeList)
deriving Repr
end

/-- Build a `NodeList` from a `List Node` (fixture convenience). -/
def nodeListOf : List Node → NodeList
  | [] => .nil
  | n :: l => .cons n (nodeListOf l)

/-- Fixture convenience: an element node from a plain list of children. -/
def el (tag : String) (attrs : List (String × String))
    (children : List Node) : Node :=
  .elem tag attrs (nodeListOf children)

mutual
/-- Structural equality of nodes — BeautifulSoup's `Tag.__eq__` compares
name, attributes and contents (here attribute lists in order, which the
concrete fixtures respect). -/
def Node.beq : Node → Node → Bool
  | .text s, .text t => s == t
  | .elem t1 a1 c1, .elem t2 a2 c2 => t1 == t2 && a1 == a2 && NodeList.beq c1 c2
  | _, _ => false
def NodeList.beq : NodeList → NodeList → Bool
  | .nil, .nil => true
  | .cons n l, .cons m k => Node.beq n m && NodeList.beq l k
  | _, _ => false
end

instance : BEq Node := ⟨Node.beq⟩

/-- The children of a node. -/
def childrenOf : Node → NodeList
  | .elem _ _ ch => ch
  | .text _ => .nil

/-- An attribute value (`tag.get(k)` / `tag[k]`). -/
def attrOf (k : String) : Node → Option String
  | .elem _ attrs _ => (attrs.find? (fun p => p.1 == k)).map (fun p => p.2)
  | .text _ => none

/-- Split a `class` attribute value into individual class strings
(HTML splits the attribute on whitespace; `cur` accumulates the current
word reversed). -/
def wordsAux (cur : List Char) : List Char → List (List Char)
  | [] => if cur.isEmpty then [] else [cur.reverse]
  | c :: cs =>
    if isPyWs c then
      if cur.isEmpty then wordsAux [] cs else cur.reverse :: wordsAux [] cs
    else wordsAux (c :: cur) cs

/-- The individual CSS classes of a node (BeautifulSoup's multi-valued
`class` attribute). -/
def classesOf (n : Node) : List String :=
  match attrOf "class" n with
  | some s => (wordsAux [] s.data).map String.mk
  | none => []

/-- A `class_=lambda c: …` filter: BeautifulSoup applies the function to
each individual class string; a tag without classes never matches (the
function receives `None`, falsy for every predicate in the source). -/
def classMatch (f : String → Bool) (n : Node) : Bool :=
  (classesOf n).any f

/-- An `id=lambda i: …` filter whose body is guarded by `i and …`. -/
def idMatch (f : String → Bool) (n : Node) : Bool :=
  match attrOf "id" n with
  | some i => f i
  | none => false

/-- `any(word in str(c).lower() for word in ws)` — the class predicates
of the source. -/
def anyWordSub (ws : List String) (c : String) : Bool :=
  ws.any (fun w => substrS w (strLower c))

/-- Tag-name test. -/
def tagIs (s : String) : Node → Bool
  | .elem t _ _ => t == s
  | .text _ => false

/-- Tag-name test against a list (`find_all(['td','th'])` etc.). -/
def tagIn (ts : List String) : Node → Bool
  | .elem t _ _ => ts.contains t
  | .text _ => false

/-- The heading tags `['h1'..'h6']`. -/
def isHeading (n : Node) : Bool :=
  tagIn ["h1", "h2", "h3", "h4", "h5", "h6"] n

mutual
/-- `n.find_all(pred)`: matching element descendants of `n` (excluding
`n` itself) in document order. -/
def findAllN (p : Node → Bool) : Node → List Node
  | .text _ => []
  | .elem _ _ ch => findAllL p ch
/-- `find_all` over a forest. -/
def findAllL (p : Node → Bool) : NodeList → List Node
  | .nil => []
  | .cons n l =>
    (match n with
     | .text _ => []
     | .elem _ _ _ => (if p n then [n] else []) ++ findAllN p n) ++ findAllL p l
end

/-- `n.find(pred)`: the first matching descendant. -/
def findFirst (p : Node → Bool) (n : Node) : Option Node :=
  (findAllN p n).head?

mutual
/-- The descendant text-node strings of a node, in document order
(BeautifulSoup's `strings`). -/
def textsN : Node → List String
  | .text s => [s]
  | .elem _ _ ch => textsL ch
/-- `strings` over a forest. -/
def textsL : NodeList → List String
  | .nil => []
  | .cons n l => textsN n ++ textsL l
end

/-- `n.get_text(separator=sep, strip=strip)`. -/
def getTextSep (sep : String) (strip : Bool) (n : Node) : String :=
  let ts := textsN n
  joinSep sep (if strip then (ts.map pyStrip).filter (fun s => s != "") else ts)

/-- `n.text` / `n.get_text()`. -/
def textOf (n : Node) : String :=
  getTextSep "" false n

mutual
/-- Every node of the subtree (the node itself, then its descendants) in
pre-order — BeautifulSoup's `next_element` document order. -/
def allNodesN (n : Node) : List Node :=
  match n with
  | .text s => [.text s]
  | .elem t a ch => .elem t a ch :: allNodesL ch
/-- Pre-order over a forest. -/
def allNodesL : NodeList → List Node
  | .nil => []
  | .cons n l => allNodesN n ++ allNodesL l
end

/-- The first element (non-text) node of a forest — what
`find_next_sibling()` with no criteria returns. -/
def firstElemNL : NodeList → Option Node
  | .nil => none
  | .cons n l =>
    match n with
    | .elem _ _ _ => some n
    | .text _ => firstElemNL l

mutual
/-- All `(element, next element sibling)` pairs of a subtree in document
order: `e.find_next_sibling()` for every element `e`. -/
def sibPairsN : Node → List (Node × Option Node)
  | .text _ => []
  | .elem _ _ ch => sibPairsL ch
/-- Sibling pairs over a forest. -/
def sibPairsL : NodeList → List (Node × Option Node)
  | .nil => []
  | .cons n l =>
    (match n with
     | .elem _ _ _ => (n, firstElemNL l) :: sibPairsN n
     | .text _ => []) ++ sibPairsL l
end

mutual
/-- All `tr` descendants of a subtree in document order, each flagged with
whether a `thead` ancestor lies inside the subtree
(`row.find_parent('thead')` for rows collected from a table). -/
def trsN (inThead : Bool) : Node → List (Node × Bool)
  | .text _ => []
  | .elem t _ ch => trsL (inThead || t == "thead") ch
/-- Flagged `tr` collection over a forest. -/
def trsL (inThead : Bool) : NodeList → List (Node × Bool)
  | .nil => []
  | .cons n l =>
    (match n with
     | .elem t _ _ => (if t == "tr" then [(n, inThead)] else []) ++ trsN inThead n
     | .text _ => []) ++ trsL inThead l
end

/-- `u.find_next(pred)` relative to a root: the first node matching `pred`
that follows `target` in the root's pre-order (the first structural
occurrence of `target` locates it). -/
def findNextAfter (root target : Node) (p : Node → Bool) : Option Node :=
  let all := allNodesN root
  match all.findIdx? (fun m => Node.beq m target) with
  | none => none
  | some i => ((all.drop (i + 1)).filter p).head?

/-- `any(container in spec_containers for container in t.parents)`:
some container has `t` as a strict descendant (structural equality, as
BeautifulSoup's `in` uses `__eq__`). -/
def inAncestorsOf (containers : List Node) (t : Node) : Bool :=
  containers.any (fun c => (allNodesL (childrenOf c)).any (fun m => Node.beq m t))

mutual
/-- Remove every subtree rooted at a node satisfying `p` (the pure form of
iterated `decompose`). -/
def pruneNode (p : Node → Bool) : Node → Node
  | .text s => .text s
  | .elem t a ch => .elem t a (pruneForest p ch)
/-- Pruning over a forest. -/
def pruneForest (p : Node → Bool) : NodeList → NodeList
  | .nil => .nil
  | .cons n l =>
    if p n then pruneForest p l
    else .cons (pruneNode p n) (pruneForest p l)
end

/-!
### `DataCleaner` — page classifier (`data_cleaner.py:61-124`)

The DeepSeek model is an external collaborator: its confidence score is a
parameter `conf : String → ℚ` of the embedding (the prompt built from the
page content determines the score, so a function of the content is fully
general).  The float literals `0.2` / `0.3` are embedded as the exact
rationals they denote in the source text. -/

/-- One element of `raw_data`: a page dictionary produced by the crawler.
The `html` field carries the BeautifulSoup-parsed tree; `none` embeds a
dictionary without an `'html'` key. -/
structure RawPage where
  url : String
  company : String
  html : Option Node
  content : String

/-- `self.product_url_patterns` (`data_cleaner.py:32-35`); every pattern
is a regex without metacharacters, i.e. a literal substring. -/
def product_url_patterns : List String :=
  ["/product", "/products", "/drone", "/uav",
   "/specification", "/tech", "/technical", "/detail"]

/-- `any(re.search(pattern, url, re.IGNORECASE) for pattern in
self.product_url_patterns)`: case-insensitive substring containment (the
patterns are lowercase ASCII literals). -/
def urlPatternHit (url : String) : Bool :=
  product_url_patterns.any (fun p => substrS p (strLower url))

/-- `tech_keywords` (`data_cleaner.py:96-103`). -/
def tech_keywords : List String :=
  ["技术参数", "技术规格", "产品规格", "规格参数", "性能参数",
   "产品参数", "参数配置", "技术指标", "产品特性", "功能特点",
   "specifications", "technical data", "parameters", "performance",
   "features", "dimensions", "weight", "battery", "camera", "sensor",
   "飞行时间", "续航时间", "最大速度", "最大高度", "控制距离", "载重",
   "分辨率", "像素", "重量", "电池", "相机", "传感器", "遥控器"]

/-- `any(keyword in content.lower() for keyword in tech_keywords)`. -/
def keywordHit (content : String) : Bool :=
  tech_keywords.any (fun k => substrS k (strLower content))

/-- `DataCleaner._is_product_spec_page` (`data_cleaner.py:85-124`): the
decision threshold is 0.2 when a tech keyword occurs in the lowercased
content and 0.3 otherwise, and the page passes when the model confidence
strictly exceeds it. -/
def is_product_spec_page (conf : String → ℚ) (content : String) : Bool :=
  let keyword_match := keywordHit content
  let threshold : ℚ := if keyword_match then 2/10 else 3/10
  decide (conf content > threshold)

/-- `DataCleaner._filter_product_pages` (`data_cleaner.py:61-83`): keep the
pages whose URL matches a product pattern and whose content passes the
model check. -/
def filter_product_pages (conf : String → ℚ) (raw_data : List RawPage) :
    List RawPage :=
  raw_data.filter (fun page =>
    urlPatternHit page.url && is_product_spec_page conf page.content)

/-!
### `DataCleaner._remove_irrelevant_elements` (`data_cleaner.py:612-646`)

Six sequential passes of find-and-decompose over the soup; every pass is
`pruneNode` of a predicate that only inspects tag name and attributes. -/

/-- Pass 1: `soup(['script', 'style', 'iframe', 'noscript'])`. -/
def isScriptLike (n : Node) : Bool :=
  tagIn ["script", "style", "iframe", "noscript"] n

/-- Pass 2: `find_all(['nav', 'header'])`. -/
def isNavHeader (n : Node) : Bool :=
  tagIn ["nav", "header"] n

/-- Pass 3: `find_all(['footer'])`. -/
def isFooterTag (n : Node) : Bool :=
  tagIn ["footer"] n

/-- Pass 4: class contains one of `['ad', 'ads', 'advertisement',
'banner']`. -/
def isAdLike (n : Node) : Bool :=
  classMatch (anyWordSub ["ad", "ads", "advertisement", "banner"]) n

/-- Pass 5: class contains one of `['social', 'share', 'follow']`. -/
def isSocialLike (n : Node) : Bool :=
  classMatch (anyWordSub ["social", "share", "follow"]) n

/-- Pass 6: class contains one of `['comment', 'comments', 'discuss']`. -/
def isCommentLike (n : Node) : Bool :=
  classMatch (anyWordSub ["comment", "comments", "discuss"]) n

/-- `DataCleaner._remove_irrelevant_elements` as a pure function: the six
decompose passes applied to the soup in source order (the soup root itself
is never a removal candidate). -/
def remove_irrelevant_elements (soup : Node) : Node :=
  pruneNode isCommentLike
    (pruneNode isSocialLike
      (pruneNode isAdLike
        (pruneNode isFooterTag
          (pruneNode isNavHeader
            (pruneNode isScriptLike soup)))))

/-!
### `DataCleaner._extract_product_name` (`data_cleaner.py:163-259`)

A five-step cascade with a title fallback, followed by whitespace
collapsing and suffix-phrase stripping. -/

/-- The product-name class markers of `data_cleaner.py:196-198`. -/
def prodNameWords : List String :=
  ["product-name", "product-title", "product_name", "product_title",
   "productname", "producttitle"]

/-- The drone keywords of `data_cleaner.py:224`. -/
def droneKeywords : List String :=
  ["无人机", "drone", "uav", "quadcopter", "copter", "aircraft"]

/-- The URL-segment keywords of `data_cleaner.py:238`. -/
def urlNameKeywords : List String :=
  ["product", "drone", "uav", "model"]

/-- One meta-tag candidate of the name cascade: the tag must exist, its
raw `content` attribute must be truthy, and the stripped content must be
longer than 3 characters. -/
def metaName (m : Option Node) : Option String :=
  match m with
  | none => none
  | some mt =>
    match attrOf "content" mt with
    | none => none
    | some c =>
      if c != "" then
        let c1 := pyStrip c
        if c1 != "" && c1.length > 3 then some c1 else none
      else none

/-- `re.sub(r'[-_]', ' ', part)`. -/
def dashToSpace (s : String) : String :=
  ⟨s.data.map (fun c => if c == '-' || c == '_' then ' ' else c)⟩

/-- `DataCleaner._extract_product_name`. -/
def extract_product_name (soup : Node) (url : String) : String :=
  let metaTags : List (Option Node) :=
    [findFirst (fun n => tagIs "meta" n && attrOf "property" n == some "og:title") soup,
     findFirst (fun n => tagIs "meta" n && attrOf "name" n == some "title") soup,
     findFirst (fun n => tagIs "meta" n && attrOf "name" n == some "product:title") soup,
     findFirst (fun n => tagIs "meta" n && attrOf "name" n == some "twitter:title") soup]
  let step1 : Option String :=
    metaTags.foldl (fun acc m =>
      match acc with
      | some _ => acc
      | none => metaName m) none
  let selectors : List (Option Node) :=
    [findFirst (fun n => tagIs "h1" n && classMatch (anyWordSub prodNameWords) n) soup,
     findFirst (fun n => tagIs "div" n && classMatch (anyWordSub prodNameWords) n) soup,
     findFirst (fun n => tagIs "span" n && classMatch (anyWordSub prodNameWords) n) soup]
  let step2 : Option String :=
    selectors.foldl (fun acc m =>
      match acc with
      | some _ => acc
      | none =>
        match m with
        | none => none
        | some sel =>
          let t := pyStrip (textOf sel)
          if t != "" && t.length > 3 then some t else none) none
  let step3 : Option String :=
    match findFirst (tagIs "title") soup with
    | none => none
    | some tn =>
      let t := stripSiteSuffix (pyStrip (textOf tn))
      if t != "" && t.length > 3 then some t else none
  let h1Tags := findAllN (tagIs "h1") soup
  let step4 : Option String :=
    h1Tags.foldl (fun acc h1 =>
      match acc with
      | some _ => acc
      | none =>
        let t := pyStrip (textOf h1)
        if droneKeywords.any (fun k => substrS k (strLower t)) then some t
        else if h1Tags.length == 1 && 3 < t.length && t.length < 50 then some t
        else none) none
  let step5 : Option String :=
    (pySplitSlash url).foldl (fun acc part =>
      match acc with
      | some _ => acc
      | none =>
        if urlNameKeywords.any (fun k => substrS k (strLower part)) then
          let cleaned := dashToSpace part
          if cleaned != "" && cleaned.length > 3 then some (pyTitle cleaned)
          else none
        else none) none
  let fallback : Option String :=
    match findFirst (tagIs "title") soup with
    | none => none
    | some tn => some (pyStrip (textOf tn))
  match step1 <|> step2 <|> step3 <|> step4 <|> step5 <|> fallback with
  | none => ""
  | some s =>
    if s == "" then ""
    else stripNameSuffix (pyStrip (collapseWs s))

/-!
### `DataCleaner._extract_product_description` (`data_cleaner.py:261-292`) -/

/-- The description class markers of `data_cleaner.py:275`. -/
def descWords : List String :=
  ["desc", "intro", "about", "overview"]

/-- `DataCleaner._extract_product_description`: concatenate long texts of
description-classed `p`/`div` elements; if none, concatenate page
paragraphs longer than 100 characters up to an accumulated 500. -/
def extract_product_description (soup : Node) : String :=
  let els := findAllN (fun n =>
    tagIn ["p", "div"] n && classMatch (anyWordSub descWords) n) soup
  let d1 := els.foldl (fun acc e =>
    let t := pyStrip (textOf e)
    if t.length > 50 then acc ++ t ++ "\n" else acc) ""
  let d :=
    if d1 == "" then
      ((findAllN (tagIs "p") soup).foldl (fun (st : String × Bool) p =>
        if st.2 then st
        else
          let t := pyStrip (textOf p)
          if t.length > 100 then
            let acc := st.1 ++ t ++ "\n"
            (acc, acc.length > 500)
          else st) ("", false)).1
    else d1
  pyStrip d

/-!
### `DataCleaner._extract_main_content` (`data_cleaner.py:648-716`) -/

/-- The main-content id/class markers of `data_cleaner.py:663-664`. -/
def mainWords : List String :=
  ["content", "main", "article", "product"]

/-- Collect one container's contribution to the main content: long
paragraphs, bulleted list items, headings (`data_cleaner.py:668-691`). -/
def mainFromContainer (acc : String) (elNode : Node) : String :=
  let acc := (findAllN (tagIs "p") elNode).foldl (fun a p =>
    let t := pyStrip (textOf p)
    if t != "" && t.length > 20 then a ++ t ++ "\n\n" else a) acc
  let acc := (findAllN (tagIn ["ul", "ol"]) elNode).foldl (fun a l =>
    ((findAllN (tagIs "li") l).foldl (fun a item =>
      let t := pyStrip (textOf item)
      if t != "" then a ++ "• " ++ t ++ "\n" else a) a) ++ "\n") acc
  (findAllN isHeading elNode).foldl (fun a h =>
    let t := pyStrip (textOf h)
    if t != "" then a ++ t ++ "\n\n" else a) acc

/-- `DataCleaner._extract_main_content`. -/
def extract_main_content (soup : Node) : String :=
  let mains := findAllN (fun n =>
    tagIn ["main", "article", "section", "div"] n &&
      idMatch (anyWordSub mainWords) n &&
      classMatch (anyWordSub mainWords) n) soup
  let body := mains.foldl mainFromContainer ""
  let body :=
    if body == "" then
      let b := (findAllN (tagIs "p") soup).foldl (fun a p =>
        let t := pyStrip (textOf p)
        if t != "" && t.length > 20 then a ++ t ++ "\n\n" else a) ""
      (findAllN (tagIn ["ul", "ol"]) soup).foldl (fun a l =>
        ((findAllN (tagIs "li") l).foldl (fun a item =>
          let t := pyStrip (textOf item)
          if t != "" then a ++ "• " ++ t ++ "\n" else a) a) ++ "\n") b
    else body
  subNlWsNl (pyStrip (collapseWs body))

/-!
### `DataCleaner._extract_tech_specs` (`data_cleaner.py:294-552`)

Six key/value strategies write into the module-scope dictionary
`tech_specs` (`data_cleaner.py:16`), embedded as explicit state
`SpecDict` threaded in and out; the function's return value is the
concatenated prose text of the identified regions.  A Python value that
can be a string or a dictionary is embedded as `PyVal`. -/

/-- The module-scope `tech_specs` dictionary: an insertion-ordered
key/value association, as a Python dict. -/
abbrev SpecDict := List (String × String)

/-- The keys of the dictionary. -/
def dictKeys (d : SpecDict) : List String :=
  d.map (fun p => p.1)

/-- `d[k] = v` on a Python dict: overwrite in place when the key exists,
else append. -/
def dictInsert (d : SpecDict) (k v : String) : SpecDict :=
  if d.any (fun p => p.1 == k) then
    d.map (fun p => if p.1 == k then (k, v) else p)
  else d ++ [(k, v)]

/-- A Python value that is either a string or a dict (the type
`_clean_page_content` discriminates with `isinstance`). -/
inductive PyVal where
  | vstr (s : String)
  | vdict (d : SpecDict)
deriving Repr, DecidableEq

/-- Is the value a string? -/
def PyVal.isStr : PyVal → Bool
  | .vstr _ => true
  | .vdict _ => false

/-- Python truthiness of the value (`not tech_specs`). -/
def PyVal.falsy : PyVal → Bool
  | .vstr s => s == ""
  | .vdict d => d.isEmpty

/-- `spec_keywords` (`data_cleaner.py:308-313`; `产品参数` is listed
twice in the source). -/
def spec_keywords : List String :=
  ["技术参数", "技术规格", "产品规格", "规格参数", "性能参数", "产品参数", "参数配置",
   "技术指标", "产品特性", "功能特点", "详细参数", "详细规格", "产品参数", "基本参数",
   "specifications", "technical data", "parameters", "performance", "tech specs",
   "technical specifications", "product specifications", "spec sheet"]

/-- The cleaning-and-guard insertion shared by strategies 3-6
(`key and value and len(key) < 100 and not key.isdigit()`, then the
trailing-punctuation strip on the key). -/
def guardInsert (d : SpecDict) (key value : String) : SpecDict :=
  if key != "" && value != "" && key.length < 100 && !(pyIsDigit key) then
    dictInsert d (cleanKey key) value
  else d

/-- The spec containers of strategy 1 (`data_cleaner.py:316-335`): per
keyword, elements whose id contains it, elements whose class contains it,
and the next element sibling of every heading whose text contains it. -/
def specContainersOf (soup : Node) : List Node :=
  let headingSibs := (sibPairsN soup).filter (fun pr => isHeading pr.1)
  spec_keywords.foldl (fun acc kw =>
    let byId := findAllN (idMatch (fun i => substrS (strLower kw) (strLower i))) soup
    let byClass := findAllN (classMatch (fun c => substrS (strLower kw) (strLower c))) soup
    let bySib := headingSibs.filterMap (fun pr =>
      if substrS (strLower kw) (strLower (textOf pr.1)) then pr.2 else none)
    acc ++ byId ++ byClass ++ bySib) []

/-- `row.find_all(['td', 'th'])`. -/
def cellsOfRow (row : Node) : List Node :=
  findAllN (tagIn ["td", "th"]) row

/-- The ≥2-cell branch of the table-row loop (`data_cleaner.py:365-377`):
strip and collapse the first two cells, guard, insert. -/
def twoColInsert (d : SpecDict) (cells : List Node) : SpecDict :=
  match cells with
  | c0 :: c1 :: _ =>
    guardInsert d (collapseWs (pyStrip (textOf c0))) (collapseWs (pyStrip (textOf c1)))
  | _ => d

/-- `potential_header.find('th')` as a test. -/
def hasThCell (r : Node) : Bool :=
  !(findAllN (tagIs "th") r).isEmpty

/-- The `elif len(cells) > 2` branch of the table-row loop
(`data_cleaner.py:380-402`): skip header rows, find the first other row
holding a `th`, and when the cell counts match zip header cells to data
cells (with the extra `key != value` guard). -/
def multiColInsert (table : Node) (d : SpecDict) (row : Node)
    (inThead : Bool) (cells : List Node) : SpecDict :=
  if inThead || cells.all (tagIs "th") then d
  else
    match (((trsN false table).map Prod.fst).filter (fun r =>
        hasThCell r && !(Node.beq r row))).head? with
    | none => d
    | some hr =>
      let hcells := findAllN (tagIn ["th", "td"]) hr
      if hcells.length == cells.length then
        (hcells.zip cells).foldl (fun d pr =>
          let key := pyStrip (textOf pr.1)
          let value := pyStrip (textOf pr.2)
          if key != "" && value != "" && key != value && key.length < 100 &&
              !(pyIsDigit key) then
            dictInsert d (cleanKey key) value
          else d) d
      else d

/-- One row of the table loop (`data_cleaner.py:360-402`): the source
tests `len(cells) >= 2` first, so the `elif len(cells) > 2` branch is
syntactically present but unreachable. -/
def processRow (table : Node) (d : SpecDict) (rowf : Node × Bool) : SpecDict :=
  let cells := cellsOfRow rowf.1
  if cells.length ≥ 2 then twoColInsert d cells
  else if cells.length > 2 then multiColInsert table d rowf.1 rowf.2 cells
  else d

/-- One table of strategy 2 (`data_cleaner.py:349-402`): process its rows
when the table text contains a spec keyword or the table sits inside a
spec container. -/
def extractTable (containers : List Node) (d : SpecDict) (table : Node) :
    SpecDict :=
  let tableText := strLower (textOf table)
  if spec_keywords.any (fun kw => substrS (strLower kw) tableText) ||
      inAncestorsOf containers table then
    (trsN false table).foldl (processRow table) d
  else d

/-- One definition list of strategy 3 (`data_cleaner.py:416-428`). -/
def dlStep (d : SpecDict) (dl : Node) : SpecDict :=
  let dts := findAllN (tagIs "dt") dl
  let dds := findAllN (tagIs "dd") dl
  if dts.length == dds.length then
    (dts.zip dds).foldl (fun d pr =>
      guardInsert d (pyStrip (textOf pr.1)) (pyStrip (textOf pr.2))) d
  else d

/-- One list of strategy 4 (`data_cleaner.py:452-464`): each item matched
against the strict `key:value` pattern. -/
def listStep (d : SpecDict) (lst : Node) : SpecDict :=
  (findAllN (tagIs "li") lst).foldl (fun d item =>
    match matchKVStrict (pyStrip (textOf item)).data with
    | some (k, v) => guardInsert d (pyStrip ⟨k⟩) (pyStrip ⟨v⟩)
    | none => d) d

/-- One paragraph of strategy 5 (`data_cleaner.py:478-490`): each line
matched against the loose `key[:\s]*value` pattern. -/
def paraStep (d : SpecDict) (para : Node) : SpecDict :=
  (pySplitNl (pyStrip (textOf para))).foldl (fun d line =>
    match matchKVLoose line.data with
    | some (k, v) => guardInsert d (pyStrip ⟨k⟩) (pyStrip ⟨v⟩)
    | none => d) d

/-- One item-div of strategy 6 (`data_cleaner.py:494-505`): pair a
name/key/label/title-classed sub-element with a
value/data/content-classed one. -/
def divStep (d : SpecDict) (dv : Node) : SpecDict :=
  match findFirst (classMatch (anyWordSub ["name", "key", "label", "title"])) dv,
      findFirst (classMatch (anyWordSub ["value", "data", "content"])) dv with
  | some ke, some ve => guardInsert d (pyStrip (textOf ke)) (pyStrip (textOf ve))
  | _, _ => d

/-- The textual concatenation of `data_cleaner.py:508-544`. -/
def specText (containers tables dls specLists specParas specDivs : List Node) :
    String :=
  let t := containers.foldl (fun acc c =>
    let s := getTextSep "\n" true c
    if s != "" then acc ++ s ++ "\n\n" else acc) ""
  let t := tables.foldl (fun acc c =>
    let s := getTextSep "\n" true c
    if s != "" then acc ++ s ++ "\n\n" else acc) t
  let t := dls.foldl (fun acc c =>
    let s := getTextSep "\n" true c
    if s != "" then acc ++ s ++ "\n\n" else acc) t
  let t := specLists.foldl (fun acc c =>
    let s := getTextSep "\n" true c
    if s != "" then acc ++ s ++ "\n\n" else acc) t
  let t := specParas.foldl (fun acc c =>
    let s := getTextSep "" true c
    if s != "" then acc ++ s ++ "\n" else acc) t
  specDivs.foldl (fun acc c =>
    let s := getTextSep "\n" true c
    if s != "" then acc ++ s ++ "\n" else acc) t

/-- `DataCleaner._extract_tech_specs`: the six key/value strategies update
the module-scope dictionary (threaded as `g`); the returned value is the
cleaned prose text of all identified regions — always a string. -/
def extract_tech_specs (soup : Node) (g : SpecDict) : PyVal × SpecDict :=
  let containers := specContainersOf soup
  let tablesC := containers.foldl (fun acc c => acc ++ findAllN (tagIs "table") c) []
  let tables := if tablesC.isEmpty then findAllN (tagIs "table") soup else tablesC
  let d1 := tables.foldl (extractTable containers) g
  let dlsC := containers.foldl (fun acc c => acc ++ findAllN (tagIs "dl") c) []
  let dls := if dlsC.isEmpty then findAllN (tagIs "dl") soup else dlsC
  let d2 := dls.foldl dlStep d1
  let listsC := containers.foldl (fun acc c => acc ++ findAllN (tagIn ["ul", "ol"]) c) []
  let specLists :=
    if listsC.isEmpty then
      let byClass := findAllN (fun n =>
        tagIn ["ul", "ol"] n &&
          classMatch (anyWordSub ["spec", "parameter", "tech", "feature"]) n) soup
      if byClass.isEmpty then
        spec_keywords.foldl (fun acc kw =>
          (findAllN isHeading soup).foldl (fun acc h =>
            if substrS (strLower kw) (strLower (textOf h)) then
              match findNextAfter soup h (tagIn ["ul", "ol"]) with
              | some nl => acc ++ [nl]
              | none => acc
            else acc) acc) []
      else byClass
    else listsC
  let d3 := specLists.foldl listStep d2
  let parasC := containers.foldl (fun acc c => acc ++ findAllN (tagIn ["p", "div"]) c) []
  let specParas :=
    if parasC.isEmpty then
      findAllN (fun n =>
        tagIn ["p", "div"] n &&
          classMatch (anyWordSub ["spec", "parameter", "tech", "feature"]) n) soup
    else parasC
  let d4 := specParas.foldl paraStep d3
  let specDivs := findAllN (fun n =>
    tagIs "div" n &&
      classMatch (anyWordSub ["spec-item", "param-item", "feature-item"]) n) soup
  let d5 := specDivs.foldl divStep d4
  let txt := specText containers tables dls specLists specParas specDivs
  (PyVal.vstr (pyStrip (collapseWs (collapseNl3 txt))), d5)

/-!
### `DataCleaner._clean_page_content` (`data_cleaner.py:554-610`) -/

/-- A cleaned page record. -/
structure CleanedPage where
  url : String
  company : String
  product_name : String
  description : String
  tech_specs : String
  content : String
deriving Repr, DecidableEq

/-- The `isinstance(tech_specs, dict)` compatibility branch of
`data_cleaner.py:594-598`: a dict is flattened to `k: v` lines, a string
passes through. -/
def pyValToText : PyVal → String
  | .vdict d => joinSep "\n" (d.map (fun p => p.1 ++ ": " ++ p.2))
  | .vstr s => s

/-- `DataCleaner._clean_page_content`: sanitize, run the four extractors,
return `none` when every field is empty, else the record.  The
module-scope dictionary is threaded alongside. -/
def clean_page_content (g : SpecDict) (page : Option RawPage) :
    Option CleanedPage × SpecDict :=
  match page with
  | none => (none, g)
  | some p =>
    match p.html with
    | none => (none, g)
    | some dom =>
      let soup := remove_irrelevant_elements dom
      let product_name := extract_product_name soup p.url
      let description := extract_product_description soup
      let specsPair := extract_tech_specs soup g
      let main_content := extract_main_content soup
      if product_name == "" && description == "" && specsPair.1.falsy &&
          main_content == "" then
        (none, specsPair.2)
      else
        (some ⟨p.url, p.company, product_name, description,
          pyValToText specsPair.1, main_content⟩, specsPair.2)

/-!
### Helper lemmas -/

/-- A predicate that inspects only tag and attributes (all six sanitizer
predicates do): pruning the children of an element cannot change its
value. -/
def shallowPred (p : Node → Bool) : Prop :=
  ∀ t a ch ch', p (Node.elem t a ch) = p (Node.elem t a ch')

theorem isScriptLike_shallow : shallowPred isScriptLike := by
  intro t a ch ch'; rfl

theorem isNavHeader_shallow : shallowPred isNavHeader := by
  intro t a ch ch'; rfl

theorem isFooterTag_shallow : shallowPred isFooterTag := by
  intro t a ch ch'; rfl

theorem isAdLike_shallow : shallowPred isAdLike := by
  intro t a ch ch'; rfl

theorem isSocialLike_shallow : shallowPred isSocialLike := by
  intro t a ch ch'; rfl

theorem isCommentLike_shallow : shallowPred isCommentLike := by
  intro t a ch ch'; rfl

theorem self_mem_allNodesN (n : Node) : n ∈ allNodesN n := by
  cases n with
  | text s => simp [allNodesN]
  | elem t a ch => simp [allNodesN]

mutual
/-- If no node of the subtree's children satisfies `p`, pruning is the
identity on the node. -/
theorem pruneNode_clean (p : Node → Bool) (n : Node)
    (h : ∀ m ∈ allNodesL (childrenOf n), p m = false) : pruneNode p n = n := by
  cases n with
  | text s => rfl
  | elem t a ch =>
    simp only [pruneNode]
    rw [pruneForest_clean p ch (by simpa [childrenOf] using h)]
/-- If no node of the forest satisfies `p`, pruning is the identity. -/
theorem pruneForest_clean (p : Node → Bool) (l : NodeList)
    (h : ∀ m ∈ allNodesL l, p m = false) : pruneForest p l = l := by
  cases l with
  | nil => rfl
  | cons n l =>
    have hmem : ∀ m ∈ allNodesN n, p m = false := by
      intro m hm
      apply h
      simp only [allNodesL, List.mem_append]
      exact Or.inl hm
    have htail : ∀ m ∈ allNodesL l, p m = false := by
      intro m hm
      apply h
      simp only [allNodesL, List.mem_append]
      exact Or.inr hm
    have hn : p n = false := hmem n (self_mem_allNodesN n)
    have hch : ∀ m ∈ allNodesL (childrenOf n), p m = false := by
      intro m hm
      apply hmem
      cases n with
      | text s => simp [childrenOf, allNodesL] at hm
      | elem t a ch =>
        simp only [allNodesN, List.mem_cons]
        exact Or.inr (by simpa [childrenOf] using hm)
    simp only [pruneForest, hn, Bool.false_eq_true, if_false]
    rw [pruneNode_clean p n hch, pruneForest_clean p l htail]
end

mutual
/-- Pruning with `q` preserves the absence of `p`-nodes (for a shallow
`p`): pruned subtrees only lose nodes, and the kept roots keep their
`p`-value. -/
theorem pruneNode_preserve (p q : Node → Bool) (hp : shallowPred p) (n : Node)
    (h : ∀ m ∈ allNodesN n, p m = false) :
    ∀ m ∈ allNodesN (pruneNode q n), p m = false := by
  cases n with
  | text s => simpa [pruneNode] using h
  | elem t a ch =>
    intro m hm
    simp only [pruneNode, allNodesN, List.mem_cons] at hm
    rcases hm with hm | hm
    · subst hm
      rw [hp t a (pruneForest q ch) ch]
      exact h _ (by simp [allNodesN])
    · exact pruneForest_preserve p q hp ch
        (fun m hm => h m (by simp [allNodesN, List.mem_cons]; exact Or.inr hm)) m hm
/-- Forest version of `pruneNode_preserve`. -/
theorem pruneForest_preserve (p q : Node → Bool) (hp : shallowPred p)
    (l : NodeList) (h : ∀ m ∈ allNodesL l, p m = false) :
    ∀ m ∈ allNodesL (pruneForest q l), p m = false := by
  cases l with
  | nil => simpa [pruneForest] using h
  | cons n l =>
    intro m hm
    simp only [pruneForest] at hm
    by_cases hq : q n
    · rw [if_pos hq] at hm
      exact pruneForest_preserve p q hp l
        (fun m hm => h m (by simp [allNodesL, List.mem_append, hm])) m hm
    · rw [if_neg hq] at hm
      simp only [allNodesL, List.mem_append] at hm
      rcases hm with hm | hm
      · exact pruneNode_preserve p q hp n
          (fun m hm => h m (by simp [allNodesL, List.mem_append, hm])) m hm
      · exact pruneForest_preserve p q hp l
          (fun m hm => h m (by simp [allNodesL, List.mem_append, hm])) m hm
end

mutual
/-- After pruning with a shallow `p`, no node of the result satisfies `p`
(the kept root is covered by the hypothesis that it was kept). -/
theorem pruneNode_removes (p : Node → Bool) (hp : shallowPred p) (n : Node)
    (hn : p n = false) : ∀ m ∈ allNodesN (pruneNode p n), p m = false := by
  cases n with
  | text s =>
    intro m hm
    simp only [pruneNode, allNodesN, List.mem_singleton] at hm
    subst hm; exact hn
  | elem t a ch =>
    intro m hm
    simp only [pruneNode, allNodesN, List.mem_cons] at hm
    rcases hm with hm | hm
    · subst hm
      rw [hp t a (pruneForest p ch) ch]
      exact hn
    · exact pruneForest_removes p hp ch m hm
/-- Forest version of `pruneNode_removes`. -/
theorem pruneForest_removes (p : Node → Bool) (hp : shallowPred p)
    (l : NodeList) : ∀ m ∈ allNodesL (pruneForest p l), p m = false := by
  cases l with
  | nil => simp [pruneForest, allNodesL]
  | cons n l =>
    intro m hm
    simp only [pruneForest] at hm
    by_cases hq : p n
    · rw [if_pos hq] at hm
      exact pruneForest_removes p hp l m hm
    · rw [if_neg hq] at hm
      simp only [allNodesL, List.mem_append] at hm
      rcases hm with hm | hm
      · exact pruneNode_removes p hp n (by simpa using hq) m hm
      · exact pruneForest_removes p hp l m hm
end

/-- Key-set preservation of `d[k] = v`: overwriting rewrites a value in
place, insertion appends. -/
theorem dictInsert_keys_super (d : SpecDict) (k v : String) :
    ∀ x ∈ dictKeys d, x ∈ dictKeys (dictInsert d k v) := by
  intro x hx
  unfold dictInsert
  by_cases h : d.any (fun p => p.1 == k)
  · rw [if_pos h]
    unfold dictKeys at hx ⊢
    rcases List.mem_map.mp hx with ⟨p, hp, hpx⟩
    apply List.mem_map.mpr
    refine ⟨(if p.1 == k then (k, v) else p : String × String),
      List.mem_map_of_mem _ hp, ?_⟩
    by_cases hk : (p.1 == k) = true
    · rw [if_pos hk]
      exact (eq_of_beq hk).symm.trans hpx
    · rw [if_neg hk]
      exact hpx
  · rw [if_neg h]
    unfold dictKeys at hx ⊢
    simp only [List.map_append, List.mem_append]
    exact Or.inl hx

/-- `foldl` preserves key-set membership when every step does. -/
theorem foldl_keys_mono {α : Type} (f : SpecDict → α → SpecDict)
    (hf : ∀ d a x, x ∈ dictKeys d → x ∈ dictKeys (f d a)) :
    ∀ (l : List α) (d : SpecDict) (x : String),
      x ∈ dictKeys d → x ∈ dictKeys (l.foldl f d) := by
  intro l
  induction l with
  | nil => intro d x hx; exact hx
  | cons a l ih => intro d x hx; exact ih (f d a) x (hf d a x hx)

theorem guardInsert_keys (d : SpecDict) (k v : String) :
    ∀ x ∈ dictKeys d, x ∈ dictKeys (guardInsert d k v) := by
  intro x hx
  unfold guardInsert
  by_cases h : k != "" && v != "" && k.length < 100 && !(pyIsDigit k)
  · rw [if_pos h]; exact dictInsert_keys_super _ _ _ x hx
  · rw [if_neg h]; exact hx

theorem twoColInsert_keys (cells : List Node) (d : SpecDict) :
    ∀ x ∈ dictKeys d, x ∈ dictKeys (twoColInsert d cells) := by
  intro x hx
  unfold twoColInsert
  match cells with
  | [] => exact hx
  | [c] => exact hx
  | c0 :: c1 :: rest => exact guardInsert_keys _ _ _ x hx

theorem multiColInsert_keys (table : Node) (row : Node) (inThead : Bool)
    (cells : List Node) (d : SpecDict) :
    ∀ x ∈ dictKeys d, x ∈ dictKeys (multiColInsert table d row inThead cells) := by
  intro x hx
  unfold multiColInsert
  by_cases h1 : inThead || cells.all (tagIs "th")
  · rw [if_pos h1]; exact hx
  · rw [if_neg h1]
    match (((trsN false table).map Prod.fst).filter (fun r =>
        hasThCell r && !(Node.beq r row))).head? with
    | none => exact hx
    | some hr =>
      simp only
      by_cases h2 : (findAllN (tagIn ["th", "td"]) hr).length == cells.length
      · rw [if_pos h2]
        refine foldl_keys_mono _ ?_ _ _ _ hx
        intro d pr y hy
        by_cases h3 : pyStrip (textOf pr.1) != "" && pyStrip (textOf pr.2) != "" &&
            pyStrip (textOf pr.1) != pyStrip (textOf pr.2) &&
            (pyStrip (textOf pr.1)).length < 100 && !(pyIsDigit (pyStrip (textOf pr.1)))
        · rw [if_pos h3]; exact dictInsert_keys_super _ _ _ y hy
        · rw [if_neg h3]; exact hy
      · rw [if_neg h2]; exact hx

theorem processRow_keys (table : Node) (rowf : Node × Bool) (d : SpecDict) :
    ∀ x ∈ dictKeys d, x ∈ dictKeys (processRow table d rowf) := by
  intro x hx
  unfold processRow
  by_cases h1 : (cellsOfRow rowf.1).length ≥ 2
  · rw [if_pos h1]; exact twoColInsert_keys _ _ x hx
  · rw [if_neg h1]
    by_cases h2 : (cellsOfRow rowf.1).length > 2
    · rw [if_pos h2]; exact multiColInsert_keys _ _ _ _ _ x hx
    · rw [if_neg h2]; exact hx

theorem extractTable_keys (containers : List Node) (table : Node) (d : SpecDict) :
    ∀ x ∈ dictKeys d, x ∈ dictKeys (extractTable containers d table) := by
  intro x hx
  unfold extractTable
  by_cases h : spec_keywords.any (fun kw => substrS (strLower kw) (strLower (textOf table))) ||
      inAncestorsOf containers table
  · rw [if_pos h]
    exact foldl_keys_mono _ (fun d a y hy => processRow_keys table a d y hy) _ _ x hx
  · rw [if_neg h]; exact hx

theorem dlStep_keys (dl : Node) (d : SpecDict) :
    ∀ x ∈ dictKeys d, x ∈ dictKeys (dlStep d dl) := by
  intro x hx
  unfold dlStep
  by_cases h : (findAllN (tagIs "dt") dl).length == (findAllN (tagIs "dd") dl).length
  · rw [if_pos h]
    exact foldl_keys_mono _ (fun d a y hy => guardInsert_keys _ _ _ y hy) _ _ x hx
  · rw [if_neg h]; exact hx

theorem listStep_keys (lst : Node) (d : SpecDict) :
    ∀ x ∈ dictKeys d, x ∈ dictKeys (listStep d lst) := by
  intro x hx
  unfold listStep
  refine foldl_keys_mono _ ?_ _ _ _ hx
  intro d item y hy
  match matchKVStrict (pyStrip (textOf item)).data with
  | some (k, v) => exact guardInsert_keys _ _ _ y hy
  | none => exact hy

theorem paraStep_keys (para : Node) (d : SpecDict) :
    ∀ x ∈ dictKeys d, x ∈ dictKeys (paraStep d para) := by
  intro x hx
  unfold paraStep
  refine foldl_keys_mono _ ?_ _ _ _ hx
  intro d line y hy
  match matchKVLoose line.data with
  | some (k, v) => exact guardInsert_keys _ _ _ y hy
  | none => exact hy

theorem divStep_keys (dv : Node) (d : SpecDict) :
    ∀ x ∈ dictKeys d, x ∈ dictKeys (divStep d dv) := by
  intro x hx
  unfold divStep
  match findFirst (classMatch (anyWordSub ["name", "key", "label", "title"])) dv,
      findFirst (classMatch (anyWordSub ["value", "data", "content"])) dv with
  | some ke, some ve => exact guardInsert_keys _ _ _ x hx
  | some ke, none => exact hx
  | none, some ve => exact hx
  | none, none => exact hx

/-- The tech-specs extractor always returns a string value. -/
theorem extract_tech_specs_isStr (soup : Node) (g : SpecDict) :
    (extract_tech_specs soup g).1.isStr = true := rfl

/-- For a string value, Python falsiness is emptiness of the flattened
text. -/
theorem falsy_iff_text_empty (v : PyVal) (h : v.isStr = true) :
    v.falsy = true ↔ pyValToText v = "" := by
  cases v with
  | vstr s => simp [PyVal.falsy, pyValToText]
  | vdict d => simp [PyVal.isStr] at h

/-!
### Claim theorems for the data cleaner -/

/-- C9: the sanitizer is idempotent — running
`_remove_irrelevant_elements` on an already-sanitized document removes
nothing further.  After the first run, no descendant matches any of the
six removal predicates (each inspects only tag and attributes), so every
pass of the second run is the identity. -/
theorem sanitize_idempotent (soup : Node) :
    remove_irrelevant_elements (remove_irrelevant_elements soup) =
      remove_irrelevant_elements soup := by
  cases soup with
  | text s => rfl
  | elem t a ch =>
    simp only [remove_irrelevant_elements, pruneNode]
    set f1 := pruneForest isScriptLike ch with hf1
    set f2 := pruneForest isNavHeader f1 with hf2
    set f3 := pruneForest isFooterTag f2 with hf3
    set f4 := pruneForest isAdLike f3 with hf4
    set f5 := pruneForest isSocialLike f4 with hf5
    set f6 := pruneForest isCommentLike f5 with hf6
    have c1 : ∀ m ∈ allNodesL f6, isScriptLike m = false := by
      have a1 := pruneForest_removes isScriptLike isScriptLike_shallow ch
      rw [← hf1] at a1
      have a2 := pruneForest_preserve isScriptLike isNavHeader isScriptLike_shallow f1 a1
      rw [← hf2] at a2
      have a3 := pruneForest_preserve isScriptLike isFooterTag isScriptLike_shallow f2 a2
      rw [← hf3] at a3
      have a4 := pruneForest_preserve isScriptLike isAdLike isScriptLike_shallow f3 a3
      rw [← hf4] at a4
      have a5 := pruneForest_preserve isScriptLike isSocialLike isScriptLike_shallow f4 a4
      rw [← hf5] at a5
      have a6 := pruneForest_preserve isScriptLike isCommentLike isScriptLike_shallow f5 a5
      rw [← hf6] at a6
      exact a6
    have c2 : ∀ m ∈ allNodesL f6, isNavHeader m = false := by
      have a2 := pruneForest_removes isNavHeader isNavHeader_shallow f1
      rw [← hf2] at a2
      have a3 := pruneForest_preserve isNavHeader isFooterTag isNavHeader_shallow f2 a2
      rw [← hf3] at a3
      have a4 := pruneForest_preserve isNavHeader isAdLike isNavHeader_shallow f3 a3
      rw [← hf4] at a4
      have a5 := pruneForest_preserve isNavHeader isSocialLike isNavHeader_shallow f4 a4
      rw [← hf5] at a5
      have a6 := pruneForest_preserve isNavHeader isCommentLike isNavHeader_shallow f5 a5
      rw [← hf6] at a6
      exact a6
    have c3 : ∀ m ∈ allNodesL f6, isFooterTag m = false := by
      have a3 := pruneForest_removes isFooterTag isFooterTag_shallow f2
      rw [← hf3] at a3
      have a4 := pruneForest_preserve isFooterTag isAdLike isFooterTag_shallow f3 a3
      rw [← hf4] at a4
      have a5 := pruneForest_preserve isFooterTag isSocialLike isFooterTag_shallow f4 a4
      rw [← hf5] at a5
      have a6 := pruneForest_preserve isFooterTag isCommentLike isFooterTag_shallow f5 a5
      rw [← hf6] at a6
      exact a6
    have c4 : ∀ m ∈ allNodesL f6, isAdLike m = false := by
      have a4 := pruneForest_removes isAdLike isAdLike_shallow f3
      rw [← hf4] at a4
      have a5 := pruneForest_preserve isAdLike isSocialLike isAdLike_shallow f4 a4
      rw [← hf5] at a5
      have a6 := pruneForest_preserve isAdLike isCommentLike isAdLike_shallow f5 a5
      rw [← hf6] at a6
      exact a6
    have c5 : ∀ m ∈ allNodesL f6, isSocialLike m = false := by
      have a5 := pruneForest_removes isSocialLike isSocialLike_shallow f4
      rw [← hf5] at a5
      have a6 := pruneForest_preserve isSocialLike isCommentLike isSocialLike_shallow f5 a5
      rw [← hf6] at a6
      exact a6
    have c6 : ∀ m ∈ allNodesL f6, isCommentLike m = false := by
      have a6 := pruneForest_removes isCommentLike isCommentLike_shallow f5
      rw [← hf6] at a6
      exact a6
    rw [pruneForest_clean isScriptLike f6 c1, pruneForest_clean isNavHeader f6 c2,
      pruneForest_clean isFooterTag f6 c3, pruneForest_clean isAdLike f6 c4,
      pruneForest_clean isSocialLike f6 c5, pruneForest_clean isCommentLike f6 c6]

/-- C4: a raw page is kept by `_filter_product_pages` exactly when its
URL contains one of the product URL patterns (case-insensitively) and the
model confidence strictly exceeds the threshold, which is 0.2 when a tech
keyword occurs as a substring of the lowercased page text and 0.3
otherwise. -/
theorem classifier_accept_iff (conf : String → ℚ) (raw_data : List RawPage)
    (page : RawPage) :
    page ∈ filter_product_pages conf raw_data ↔
      page ∈ raw_data ∧ urlPatternHit page.url = true ∧
        conf page.content >
          (if keywordHit page.content then (2 / 10 : ℚ) else 3 / 10) := by
  unfold filter_product_pages is_product_spec_page
  rw [List.mem_filter]
  simp [Bool.and_eq_true, decide_eq_true_eq, and_assoc]

/-- Concrete fixture for the C4 witness: a product-URL page whose content
holds the tech keyword `规格参数`, scored 0.25 by the model — above the
lenient 0.2 threshold, below the strict 0.3 one. -/
def c4page : RawPage :=
  ⟨"https://x.com/Products/a1", "ACME", none, "规格参数: 详见下表"⟩

/-- A concrete confidence oracle for the C4 witness. -/
def c4conf : String → ℚ := fun _ => 1 / 4

/-- Witness for C4 at the concrete page. -/
theorem classifier_accept_iff_wit :
    c4page ∈ filter_product_pages c4conf [c4page] :=
  (classifier_accept_iff c4conf [c4page] c4page).mpr
    ⟨by simp, by decide, by
      have hk : keywordHit c4page.content = true := by decide
      rw [hk]
      norm_num [c4conf]⟩

/-! Concrete fixture for claim C3: a recognized specification table (its
caption holds the keyword `Specifications`) with a three-cell `th` header
row and a three-cell data row. -/

def c3Table : Node :=
  el "table" []
    [el "caption" [] [.text "Specifications"],
     el "tr" []
       [el "th" [] [.text "Parameter"], el "th" [] [.text "Value"],
        el "th" [] [.text "Unit"]],
     el "tr" []
       [el "td" [] [.text "Weight"], el "td" [] [.text "249"],
        el "td" [] [.text "g"]]]

def c3Soup : Node :=
  el "[document]" [] [el "html" [] [el "body" [] [c3Table]]]

/-- C3: evaluation at the failing input, plus the dead-branch fact.  The
three-cell rows are handled by the `len(cells) >= 2` branch — the header
row inserts `Parameter → Value` and the data row `Weight → 249`; the
header-zip `elif len(cells) > 2` branch of `data_cleaner.py:380-402` is
unreachable for every row, because `len(cells) >= 2` already captures
every row with more than two cells. -/
theorem spec_table_row_rule_eval :
    ((extract_tech_specs c3Soup []).2 =
      [("Parameter", "Value"), ("Weight", "249")]) ∧
    (∀ (table : Node) (d : SpecDict) (rowf : Node × Bool),
      processRow table d rowf =
        (if (cellsOfRow rowf.1).length ≥ 2 then twoColInsert d (cellsOfRow rowf.1)
         else d)) := by
  constructor
  · decide
  · intro table d rowf
    unfold processRow
    by_cases h : (cellsOfRow rowf.1).length ≥ 2
    · rw [if_pos h, if_pos h]
    · have h2 : ¬((cellsOfRow rowf.1).length > 2) := by omega
      rw [if_neg h, if_neg h, if_neg h2]

/-! Concrete fixtures for claim C10: two pages whose definition lists
bind the same key to different values. -/

def c10SoupA : Node :=
  el "[document]" []
    [el "dl" [] [el "dt" [] [.text "Weight"], el "dd" [] [.text "249g"]]]

def c10SoupB : Node :=
  el "[document]" []
    [el "dl" [] [el "dt" [] [.text "Weight"], el "dd" [] [.text "300g"]]]

/-- C10, counterexample: the pair `("Weight", "249g")` extracted from the
first page is no longer present in the module-scope mapping after the
second page overwrites the key — "pairs … are still present" fails as
stated (the key survives, its value does not). -/
theorem tech_specs_global_overwrite_cex :
    ((extract_tech_specs c10SoupA []).2 = [("Weight", "249g")]) ∧
    ((extract_tech_specs c10SoupB (extract_tech_specs c10SoupA []).2).2 =
      [("Weight", "300g")]) ∧
    ("Weight", "249g") ∉
      (extract_tech_specs c10SoupB (extract_tech_specs c10SoupA []).2).2 := by
  decide

/-- Modelled from the spec's claim, for comparison with the source
embedding: `_clean_page_content` with the `isinstance(tech_specs, dict)`
compatibility branch replaced by a sentinel string.  Equality with
`clean_page_content` on every input shows the dict branch is never
taken. -/
def clean_page_content_strOnly (g : SpecDict) (page : Option RawPage) :
    Option CleanedPage × SpecDict :=
  match page with
  | none => (none, g)
  | some p =>
    match p.html with
    | none => (none, g)
    | some dom =>
      let soup := remove_irrelevant_elements dom
      let product_name := extract_product_name soup p.url
      let description := extract_product_description soup
      let specsPair := extract_tech_specs soup g
      let main_content := extract_main_content soup
      if product_name == "" && description == "" && specsPair.1.falsy &&
          main_content == "" then
        (none, specsPair.2)
      else
        (some ⟨p.url, p.company, product_name, description,
          (match specsPair.1 with
           | .vstr s => s
           | .vdict _ => "<dict branch taken>"), main_content⟩, specsPair.2)

/-- C10, amended: the tech-spec extractor always returns a string (the
concatenated prose text), never the key/value mapping; the key set of the
module-scope mapping only grows across calls (although a later page can
overwrite the value stored under an existing key); and the dict-to-text
conversion branch of `_clean_page_content` is never taken — replacing it
by a sentinel changes nothing on any input. -/
theorem tech_specs_string_and_monotone (soup : Node) (g : SpecDict) :
    ((extract_tech_specs soup g).1.isStr = true) ∧
    (∀ k, k ∈ dictKeys g → k ∈ dictKeys (extract_tech_specs soup g).2) ∧
    (∀ (g' : SpecDict) (page : Option RawPage),
      clean_page_content g' page = clean_page_content_strOnly g' page) := by
  refine ⟨extract_tech_specs_isStr soup g, ?_, ?_⟩
  · intro k hk
    unfold extract_tech_specs
    dsimp only
    refine foldl_keys_mono divStep (fun d a y hy => divStep_keys a d y hy) _ _ k
      (foldl_keys_mono paraStep (fun d a y hy => paraStep_keys a d y hy) _ _ k
        (foldl_keys_mono listStep (fun d a y hy => listStep_keys a d y hy) _ _ k
          (foldl_keys_mono dlStep (fun d a y hy => dlStep_keys a d y hy) _ _ k
            (foldl_keys_mono (extractTable _)
              (fun d a y hy => extractTable_keys _ a d y hy) _ _ k hk))))
  · intro g' page
    match page with
    | none => rfl
    | some p =>
      match hh : p.html with
      | none => simp only [clean_page_content, clean_page_content_strOnly, hh]
      | some dom =>
        simp only [clean_page_content, clean_page_content_strOnly, hh]
        have hstr := extract_tech_specs_isStr (remove_irrelevant_elements dom) g'
        match hv : (extract_tech_specs (remove_irrelevant_elements dom) g').1 with
        | .vstr s => simp only [hv, pyValToText]
        | .vdict d => rw [hv] at hstr; simp [PyVal.isStr] at hstr

/-- Witness for C10's amended theorem: the key extracted from the first
page is still a key of the mapping after the second page is processed. -/
theorem tech_specs_string_and_monotone_wit :
    ("Weight" ∈ dictKeys [("Weight", "249g")]) ∧
    ("Weight" ∈ dictKeys (extract_tech_specs c10SoupB [("Weight", "249g")]).2) :=
  ⟨by decide,
    (tech_specs_string_and_monotone c10SoupB [("Weight", "249g")]).2.1 "Weight"
      (by decide)⟩

/-- C8: for a page record carrying an `html` field, `_clean_page_content`
returns `None` exactly when all four extracted fields (name, description,
tech-spec text, main content) are empty; and a returned record never has
all four fields empty. -/
theorem clean_page_null_iff (g : SpecDict) (url company content : String)
    (dom : Node) :
    ((clean_page_content g (some ⟨url, company, some dom, content⟩)).1 = none ↔
      (extract_product_name (remove_irrelevant_elements dom) url = "" ∧
       extract_product_description (remove_irrelevant_elements dom) = "" ∧
       pyValToText (extract_tech_specs (remove_irrelevant_elements dom) g).1 = "" ∧
       extract_main_content (remove_irrelevant_elements dom) = "")) ∧
    (∀ rec : CleanedPage,
      (clean_page_content g (some ⟨url, company, some dom, content⟩)).1 = some rec →
      ¬(rec.product_name = "" ∧ rec.description = "" ∧ rec.tech_specs = "" ∧
        rec.content = "")) := by
  have hstr := extract_tech_specs_isStr (remove_irrelevant_elements dom) g
  have hfal := falsy_iff_text_empty _ hstr
  simp only [clean_page_content]
  by_cases h : (extract_product_name (remove_irrelevant_elements dom) url == "") &&
      (extract_product_description (remove_irrelevant_elements dom) == "") &&
      (extract_tech_specs (remove_irrelevant_elements dom) g).1.falsy &&
      (extract_main_content (remove_irrelevant_elements dom) == "")
  · rw [if_pos h]
    simp only [Bool.and_eq_true, beq_iff_eq] at h
    constructor
    · simp only [true_iff]
      exact ⟨h.1.1.1, h.1.1.2, hfal.mp h.1.2, h.2⟩
    · intro rec hrec
      simp at hrec
  · rw [if_neg h]
    constructor
    · simp only [Option.some_ne_none, false_iff]
      intro hall
      apply h
      simp only [Bool.and_eq_true, beq_iff_eq]
      exact ⟨⟨⟨hall.1, hall.2.1⟩, hfal.mpr hall.2.2.1⟩, hall.2.2.2⟩
    · intro rec hrec
      have hrec' := Option.some.inj hrec
      intro hall
      apply h
      rw [← hrec'] at hall
      simp only [Bool.and_eq_true, beq_iff_eq]
      exact ⟨⟨⟨hall.1, hall.2.1⟩, hfal.mpr hall.2.2.1⟩, hall.2.2.2⟩

/-! Concrete fixtures for the C8 witness: a page whose only content is
one long paragraph, yielding a record with exactly the main-content field
non-empty. -/

def c8Dom : Node :=
  el "[document]" []
    [el "p" [] [.text "This paragraph has more than twenty characters."]]

def c8Rec : CleanedPage :=
  ⟨"http://a.com/x", "ACME", "", "", "",
   "This paragraph has more than twenty characters."⟩

/-- Witness for C8 at the concrete page: the cleaner returns that record,
and by the theorem the record is not all-empty. -/
theorem clean_page_null_iff_wit :
    ((clean_page_content [] (some ⟨"http://a.com/x", "ACME", some c8Dom, ""⟩)).1 =
      some c8Rec) ∧
    ¬(c8Rec.product_name = "" ∧ c8Rec.description = "" ∧ c8Rec.tech_specs = "" ∧
      c8Rec.content = "") :=
  ⟨by decide,
    (clean_page_null_iff [] "http://a.com/x" "ACME" "" c8Dom).2 c8Rec (by decide)⟩

end WebCrawling
